import Mathlib

/-!
Shallow embedding of the automation control loop of the linkedin-job-agent
repository, together with proofs checking the natural-language specification
against it.

Embedded components (with their source files):
* `PlaywrightMCPClient` (src/agent/claudeAgent.js, second file): the protocol
  client that owns the external automation process — `handleData`,
  `handleMessage`, `sendRequest`'s pending-table registration, the request
  timeout callback, and the process-exit handler.
* `SnapshotProcessor` (src/utils/snapshotProcessor.js): `removeNoise` and the
  line-level noise predicate.
* `MCPBrowserToolExecutor` (src/agent/mcpBrowserTools.js, optimized version):
  `filterSnapshot`, `detectPageState`, the state-aware truncation inside
  `takeSnapshot`, and `click`.
* `LLMAgent` (src/agent/llmAgent.js): `_navigateApplicationForm` with
  `_handleSubmit`, as a trace semantics over policy decision sequences.
* `ClaudeJobAgent.applyToJob` (src/agent/claudeAgent.js, first file): the
  bounded main loop.

Text is modelled as `List Char`; JavaScript strings map to char lists, and
`String.toList` is only used to write concrete literals.  Stateful methods
become explicit state-passing functions, and the event-driven parts of the
protocol client become a step function over an event alphabet.
-/

/-! ### Protocol client: data model

`PlaywrightMCPClient` holds `messageId` (a counter), `pendingRequests`
(a Map from id to the promise handlers of one `sendRequest` call) and
`buffer` (the incremental line buffer).  We record, instead of promise
handlers, the method name of the pending call (needed for the timeout
message) and an append-only log of promise settlements. -/

/-- How the promise returned by `sendRequest` was settled. -/
inductive Settle where
  | resolved (result : String)
  | rejectedError (msg : String)
  | rejectedTimeout (method : String)
  deriving DecidableEq

/-- One parsed JSON-RPC message, as far as `handleMessage` inspects it:
an optional `id` field, an optional `error` (already reduced to the message
text that `reject(new Error(message.error.message || 'MCP Error'))` uses),
and the `result` payload. -/
structure Msg where
  id : Option Nat
  error : Option String
  result : String
  deriving DecidableEq

/-- The mutable fields of `PlaywrightMCPClient`, plus the settlement log. -/
structure Client where
  messageId : Nat
  pending : List (Nat × String)
  buffer : List Char
  settled : List (Nat × Settle)
  logs : List (List Char)
  deriving DecidableEq

/-- The client as built by the constructor: `messageId = 0`, empty pending
table, empty buffer. -/
def initClient : Client :=
  { messageId := 0, pending := [], buffer := [], settled := [], logs := [] }

/-- Events the client reacts to: a `sendRequest` call, a chunk of bytes on
the child's stdout, the 30-second timeout of request `id` firing, and the
child process exiting. -/
inductive Ev where
  | call (method : String)
  | stdout (chunk : List Char)
  | timeoutFire (id : Nat)
  | procExit (code : Int)

/-- Ids of the entries currently in the pending table. -/
def pendingIds (st : Client) : List Nat := st.pending.map Prod.fst

/-- Membership test mirroring `this.pendingRequests.has(id)`. -/
def pendingHas (st : Client) (i : Nat) : Bool := (pendingIds st).contains i

/-- Lookup mirroring `this.pendingRequests.get(id)` (here: the stored
method name). -/
def pendingGet (st : Client) (i : Nat) : Option String :=
  (st.pending.filter (fun p => p.1 == i)).head?.map Prod.snd

/-- Deletion mirroring `this.pendingRequests.delete(id)`. -/
def pendingDelete (st : Client) (i : Nat) : List (Nat × String) :=
  st.pending.filter (fun p => p.1 != i)

/-- Method `handleMessage(message)`: a message is a response to one of our requests
exactly when it carries an `id` present in the pending table; the entry is
deleted and the promise settled — rejected if the message has an `error`
field, resolved with `message.result` otherwise. -/
def handleMessage (st : Client) (m : Msg) : Client :=
  match m.id with
  | none => st
  | some i =>
    if pendingHas st i then
      let st := { st with pending := pendingDelete st i }
      match m.error with
      | some e => { st with settled := st.settled ++ [(i, Settle.rejectedError e)] }
      | none => { st with settled := st.settled ++ [(i, Settle.resolved m.result)] }
    else st

/-- JavaScript `buffer.split('\n')`: the list of `'\n'`-separated segments;
always nonempty, and `[""]` on the empty string. -/
def splitLines : List Char → List (List Char)
  | [] => [[]]
  | c :: cs =>
    match splitLines cs with
    | [] => [[]]
    | l :: ls => if c == '\n' then [] :: l :: ls else (c :: l) :: ls

/-- JavaScript `String.prototype.trim`, as far as emptiness is concerned:
drop whitespace from both ends. -/
def jsTrim (s : List Char) : List Char :=
  ((s.dropWhile Char.isWhitespace).reverse.dropWhile Char.isWhitespace).reverse

/-- Processing of one complete line inside `handleData`'s loop: blank lines
are skipped (`if (line.trim())`), a line `JSON.parse` accepts is dispatched
to `handleMessage`, and a malformed line is logged
(`console.error('Failed to parse MCP message:', line, error)`) and dropped.
`parse` stands for the platform's `JSON.parse` followed by field extraction;
it is a parameter of the model because it is not repository code. -/
def processLine (parse : List Char → Option Msg) (st : Client) (line : List Char) : Client :=
  if jsTrim line == [] then st
  else
    match parse line with
    | some m => handleMessage st m
    | none =>
      { st with logs := st.logs ++ [("Failed to parse MCP message: ".toList ++ line)] }

/-- Method `handleData(data)`: append the chunk to the buffer, split on `'\n'`,
keep the trailing (incomplete) segment as the new buffer (`lines.pop()`),
and process every complete line in order. -/
def handleData (parse : List Char → Option Msg) (st : Client) (chunk : List Char) : Client :=
  let parts := splitLines (st.buffer ++ chunk)
  let rest := parts.getLast?.getD []
  let lines := parts.dropLast
  lines.foldl (processLine parse) { st with buffer := rest }

/-- The timeout callback registered by `sendRequest` for request `id` firing:
if the entry is still pending it is deleted and the promise rejected with
`Request timeout: <method>`. -/
def timeoutFired (st : Client) (i : Nat) : Client :=
  if pendingHas st i then
    match pendingGet st i with
    | some method =>
      { st with pending := pendingDelete st i,
                settled := st.settled ++ [(i, Settle.rejectedTimeout method)] }
    | none => st
  else st

/-- The `this.process.on('exit', ...)` handler installed by `start()`: it
only logs the exit code.  No pending entry is touched. -/
def processExited (st : Client) (code : Int) : Client :=
  { st with logs := st.logs ++ [("MCP Server exited with code ".toList ++ (toString code).toList)] }

/-- The synchronous part of `sendRequest(method, params)`: allocate the next
id (`++this.messageId`), register the pending entry, write the request to
the child's stdin (not observable in this model) and schedule the timeout. -/
def sendRequest (st : Client) (method : String) : Client :=
  let i := st.messageId + 1
  { st with messageId := i, pending := st.pending ++ [(i, method)] }

/-- One event step of the protocol client. -/
def step (parse : List Char → Option Msg) (st : Client) : Ev → Client
  | Ev.call method => sendRequest st method
  | Ev.stdout chunk => handleData parse st chunk
  | Ev.timeoutFire i => timeoutFired st i
  | Ev.procExit code => processExited st code

/-- Run a sequence of events from a state. -/
def run (parse : List Char → Option Msg) (st : Client) : List Ev → Client
  | [] => st
  | e :: es => run parse (step parse st e) es

/-- Number of settlements recorded for id `i`. -/
def settleCount (st : Client) (i : Nat) : Nat :=
  (st.settled.filter (fun p => p.1 == i)).length

/-! ### SnapshotProcessor (src/utils/snapshotProcessor.js)

`removeNoise` filters the snapshot line by line; a line is dropped when it
matches one of the noise conditions, each of which is a substring test. -/

/-- JavaScript `hay.includes(needle)`. -/
def jsIncludes (hay needle : List Char) : Bool :=
  match hay with
  | [] => needle.isEmpty
  | _ :: cs => needle.isPrefixOf hay || jsIncludes cs needle

/-- JavaScript `toLowerCase`, on the ASCII snapshot text. -/
def jsToLower (s : List Char) : List Char := s.map Char.toLower

/-- The per-line noise test of `removeNoise`, in source order: the callback
returns `false` (drop the line) exactly when one of these holds. -/
def isNoise (line : List Char) : Bool :=
  let lower := jsToLower line
  jsIncludes line ("/url:".toList)
  || jsIncludes lower ("premium".toList) || jsIncludes lower ("reactivate".toList)
  || jsIncludes lower ("navigation".toList) || jsIncludes lower ("banner".toList)
  || jsIncludes lower ("global navigation".toList)
  || jsIncludes lower ("skip to search".toList) || jsIncludes lower ("skip to main".toList)
  || jsIncludes lower ("keyboard shortcuts".toList)
  || jsIncludes lower ("toast message".toList) || jsIncludes lower ("notifications total".toList)
  || jsIncludes lower ("footer".toList) || jsIncludes lower ("linkedin corporation".toList)
  || jsIncludes lower ("home, ".toList) || jsIncludes lower ("my network,".toList)
  || jsIncludes lower ("jobs, ".toList)
  || jsIncludes lower ("messaging,".toList) || jsIncludes lower ("notifications,".toList)

/-- JavaScript `lines.join('\n')`. -/
def joinLines : List (List Char) → List Char
  | [] => []
  | [l] => l
  | l :: ls => l ++ '\n' :: joinLines ls

/-- Pass `SnapshotProcessor.removeNoise`: `snapshot.split('\n').filter(keep).join('\n')`. -/
def removeNoise (s : List Char) : List Char :=
  joinLines ((splitLines s).filter (fun l => !(isNoise l)))

/-- A line describing an actionable control in the accessibility-snapshot
format: a button, link, input, checkbox or combobox node.  This names the
element classes that the specification says must never be removed. -/
def isActionableLine (l : List Char) : Bool :=
  jsIncludes l ("- button".toList) || jsIncludes l ("- link".toList)
  || jsIncludes l ("- input".toList) || jsIncludes l ("- checkbox".toList)
  || jsIncludes l ("- combobox".toList)

/-- Estimator `SnapshotProcessor.estimateTokens`: `Math.ceil(text.length / 4)`. -/
def estimateTokens (s : List Char) : Nat := (s.length + 3) / 4

/-! ### MCPBrowserToolExecutor: snapshot triage
(src/agent/mcpBrowserTools.js, the optimized version with `filterSnapshot`,
`detectPageState` and state-aware truncation in `takeSnapshot`).

The three `navPatterns` regexes, the long-text regex and the list-item
compression regex are embedded as explicit scanning functions; each mirrors
the leftmost, global replacement behaviour of the corresponding
`String.prototype.replace` call.  Scans use a fuel argument set to the length
of the scanned text; every step consumes at least one character, so the fuel
never runs out before the text does. -/

/-- Drop everything up to and including the first occurrence of `p`; `none`
when `p` does not occur.  This is where a non-greedy `.*?` followed by the
literal `p` ends its match. -/
def cutThrough (p : List Char) : List Char → Option (List Char)
  | [] => if p.isEmpty then some [] else none
  | s@(_ :: cs) => if p.isPrefixOf s then some (s.drop p.length) else cutThrough p cs

/-- Global replacement of every (non-greedy) span from literal `p1` through
literal `p2`, both included, with `repl` — the shape of the first two
`navPatterns` regexes. -/
def replFromTo (p1 p2 repl : List Char) : Nat → List Char → List Char
  | 0, s => s
  | _ + 1, [] => []
  | fuel + 1, s@(c :: cs) =>
    if p1.isPrefixOf s then
      match cutThrough p2 (s.drop p1.length) with
      | some rest => repl ++ replFromTo p1 p2 repl fuel rest
      | none => s
    else c :: replFromTo p1 p2 repl fuel cs

/-- Does one of the lookahead alternatives `- main` / `- dialog` /
`- heading` start here? -/
def bannerAhead (s : List Char) : Bool :=
  ("- main".toList).isPrefixOf s || ("- dialog".toList).isPrefixOf s
  || ("- heading".toList).isPrefixOf s

/-- The suffix starting at the first position where `bannerAhead` holds. -/
def findAheadSplit : List Char → Option (List Char)
  | [] => none
  | s@(_ :: cs) => if bannerAhead s then some s else findAheadSplit cs

/-- Global replacement for the third `navPatterns` regex
`(?:- banner.*?(?=- (main|dialog|heading)))`: from `- banner` up to (and
excluding, the lookahead) the nearest following alternative. -/
def replBanner (repl : List Char) : Nat → List Char → List Char
  | 0, s => s
  | _ + 1, [] => []
  | fuel + 1, s@(c :: cs) =>
    if ("- banner".toList).isPrefixOf s then
      match findAheadSplit (s.drop ("- banner".toList).length) with
      | some rest => repl ++ replBanner repl fuel rest
      | none => s
    else c :: replBanner repl fuel cs

/-- Split off the chars before the first `'"'` together with the suffix
after it; `none` when there is no closing quote. -/
def spanToQuote : List Char → Option (List Char × List Char)
  | [] => none
  | c :: cs =>
    if c == '"' then some ([], cs)
    else
      match spanToQuote cs with
      | some (a, r) => some (c :: a, r)
      | none => none

/-- Global replacement for the long-text regex (`- text "([^"]{100,})"`,
applied globally): a `- text "` opener
whose quoted content runs to 100 or more characters collapses to the
placeholder `- text "[...text...]"`. -/
def replLongText : Nat → List Char → List Char
  | 0, s => s
  | _ + 1, [] => []
  | fuel + 1, s@(c :: cs) =>
    if ("- text \"".toList).isPrefixOf s then
      match spanToQuote (s.drop ("- text \"".toList).length) with
      | some (content, rest) =>
        if 100 ≤ content.length then
          ("- text \"[...text...]\"".toList) ++ replLongText fuel rest
        else c :: replLongText fuel cs
      | none => c :: replLongText fuel cs
    else c :: replLongText fuel cs

/-- Split off the chars through the first `'\n'` (included) together with
the rest; `none` when there is no newline. -/
def splitAtNL : List Char → Option (List Char × List Char)
  | [] => none
  | c :: cs =>
    if c == '\n' then some ([c], cs)
    else
      match splitAtNL cs with
      | some (a, r) => some (c :: a, r)
      | none => none

/-- One unit of the list-item regex `(- listitem.*?\n)`: a segment starting
with `- listitem` and running through its newline. -/
def takeUnit (t : List Char) : Option (List Char × List Char) :=
  if ("- listitem".toList).isPrefixOf t then splitAtNL t else none

/-- Greedily take consecutive list-item units: their count, the matched
text, and the rest. -/
def takeUnits : Nat → List Char → Nat × List Char × List Char
  | 0, t => (0, [], t)
  | fuel + 1, t =>
    match takeUnit t with
    | some (u, r) =>
      let (n, m, rest) := takeUnits fuel r
      (n + 1, u ++ m, rest)
    | none => (0, [], t)

/-- The replacer callback of the list-item compression: split the match into
its (non-blank) lines and emit the first line plus a count marker. -/
def listReplacer (m : List Char) : List Char :=
  let lines := (splitLines m).filter (fun l => !(jsTrim l == []))
  (lines.headD []) ++ ('\n' :: (("... [".toList) ++ (toString (lines.length - 1)).toList
    ++ (" more items] ...".toList) ++ ['\n']))

/-- Global replacement for `/(- listitem.*?\n){5,}/g` with `listReplacer`. -/
def replListItems : Nat → List Char → List Char
  | 0, s => s
  | _ + 1, [] => []
  | fuel + 1, s@(c :: cs) =>
    let (n, m, rest) := takeUnits s.length s
    if 5 ≤ n then listReplacer m ++ replListItems fuel rest
    else c :: replListItems fuel cs

/-- The replacement text shared by the three `navPatterns`. -/
def navRemoved : List Char := "... [Navigation removed] ...".toList

/-- Method `filterSnapshot(snapshotText)`: for re-snapshots (`snapshotCount > 1`)
strip the three navigation patterns, then collapse long `- text` blocks,
then compress runs of five or more list items.  `count` is the value of
`this.snapshotCount` at the call. -/
def filterSnapshot (count : Nat) (s : List Char) : List Char :=
  let f1 :=
    if 1 < count then
      let g1 := replFromTo ("- link \"Jobs\"".toList) ("- link \"Messaging\"".toList)
        navRemoved s.length s
      let g2 := replFromTo ("- button \"Skip to".toList) ("- button \"Dismiss\"".toList)
        navRemoved g1.length g1
      replBanner navRemoved g2.length g2
    else s
  let f2 := replLongText f1.length f1
  replListItems f2.length f2

/-- Method `detectPageState(snapshotText)`: keyword detection on the lower-cased
text, falling back to the current remembered state. -/
def detectPageState (current : List Char) (s : List Char) : List Char :=
  let lower := jsToLower s
  if jsIncludes lower ("review your application".toList)
      || jsIncludes lower ("heading \"review\"".toList) then "review".toList
  else if jsIncludes lower ("dialog".toList) || jsIncludes lower ("modal".toList)
      || jsIncludes lower ("heading \"contact info\"".toList) then "form".toList
  else if jsIncludes lower ("easy apply".toList) then "initial".toList
  else current

/-- Check `modalKeywords.some(keyword => filtered.toLowerCase().includes(keyword))`. -/
def hasModal (filtered : List Char) : Bool :=
  [("dialog".toList), ("modal".toList), ("popup".toList), ("artdeco-modal".toList),
   ("application-container".toList)].any
    (fun k => jsIncludes (jsToLower filtered) k)

/-- JavaScript `indexOf`: position of the first occurrence of `needle`, if any. -/
def firstIndexOfAux (needle : List Char) : List Char → Nat → Option Nat
  | [], k => if needle.isEmpty then some k else none
  | s@(_ :: cs), k =>
    if needle.isPrefixOf s then some k else firstIndexOfAux needle cs (k + 1)

/-- The modal-start search of `takeSnapshot`: the keywords are tried in
priority order and the first one present wins. -/
def findModalStart (filtered : List Char) : Option Nat :=
  match firstIndexOfAux ("- dialog".toList) filtered 0 with
  | some i => some i
  | none =>
    match firstIndexOfAux ("heading \"Sign in\"".toList) filtered 0 with
    | some i => some i
    | none =>
      match firstIndexOfAux ("heading \"Review\"".toList) filtered 0 with
      | some i => some i
      | none =>
        match firstIndexOfAux ("heading \"Contact info\"".toList) filtered 0 with
        | some i => some i
        | none => firstIndexOfAux ("heading \"Additional Questions\"".toList) filtered 0

/-- Marker appended after extracted modal content when material follows it. -/
def modalTailMarker : List Char :=
  "\n\n... [Content after modal truncated. Focus on the modal/dialog above.]".toList

/-- Marker prefixed when a detected modal could not be located precisely. -/
def backgroundMarker : List Char := "[Background truncated...]\n\n".toList

/-- Marker prefixed in the tail-keeping (form/review) truncation branch. -/
def earlierMarker : List Char := "[Earlier content truncated...]\n\n".toList

/-- Head and tail of the marker appended in the head-keeping (initial)
truncation branch; the filtered length is interpolated between them. -/
def snapTruncHead : List Char := "\n\n... [Snapshot truncated. Original: ".toList

/-- Tail of the head-keeping truncation marker. -/
def snapTruncTail : List Char := " chars. Scroll if needed.]".toList

/-- STEP 2 of `takeSnapshot`: context-aware truncation of the filtered
snapshot under the character cap `maxLength`. -/
def truncateStep (pageState : List Char) (maxLength : Nat) (filtered : List Char) : List Char :=
  if hasModal filtered then
    match findModalStart filtered with
    | some modalStart =>
      let modalEnd := min (modalStart + maxLength) filtered.length
      let t := (filtered.drop modalStart).take (modalEnd - modalStart)
      if modalEnd < filtered.length then t ++ modalTailMarker else t
    | none =>
      if maxLength < filtered.length then
        backgroundMarker ++ filtered.drop (filtered.length - maxLength)
      else filtered
  else if maxLength < filtered.length then
    if pageState == "initial".toList then
      filtered.take maxLength ++ snapTruncHead ++ (toString filtered.length).toList
        ++ snapTruncTail
    else earlierMarker ++ filtered.drop (filtered.length - maxLength)
  else filtered

/-- The hidden mutable fields of `MCPBrowserToolExecutor` used by
`takeSnapshot`: the remembered page state (initially `'initial'`) and the
number of snapshots taken so far (initially `0`). -/
structure ExecState where
  pageState : List Char
  snapshotCount : Nat
  deriving DecidableEq

/-- The executor as constructed. -/
def initialExecState : ExecState := { pageState := "initial".toList, snapshotCount := 0 }

/-- The snapshot-triage pipeline of `takeSnapshot` with the character cap as
an explicit budget parameter: detect the page state, filter, then truncate.
`ps0` and `count` are the executor's remembered page state and its
already-incremented snapshot counter. -/
def reduceWithBudget (ps0 : List Char) (count : Nat) (budget : Nat) (s : List Char) :
    List Char :=
  truncateStep (detectPageState ps0 s) budget (filterSnapshot count s)

/-- Method `takeSnapshot` as the code runs it: increment `snapshotCount`, update
`pageState`, pick the cap from the page state (10000 in form state, 12000
otherwise) and reduce; returns the new executor state and the text sent to
the model. -/
def takeSnapshot (st : ExecState) (snapshotText : List Char) : ExecState × List Char :=
  let count := st.snapshotCount + 1
  let pageState := detectPageState st.pageState snapshotText
  let maxLength := if pageState == "form".toList then 10000 else 12000
  ({ pageState := pageState, snapshotCount := count },
    truncateStep pageState maxLength (filterSnapshot count snapshotText))

/-! ### MCPBrowserToolExecutor.click

`click(ref, description)` awaits `this.mcp.click(description, ref)` and then
`this.wait(1000)` (which awaits `this.mcp.waitFor`), and returns a success
record.  The calls it issues to the MCP client are made observable. -/

/-- A call issued to the Playwright MCP client. -/
inductive BrowserCall where
  | click (element : String) (ref : String)
  | waitFor (ms : Nat)
  | snapshot
  deriving DecidableEq

/-- The observable outcome of the executor's `click`: the MCP calls it
issues, in order, and the value it returns to the agent loop. -/
structure ClickOutcome where
  calls : List BrowserCall
  success : Bool
  message : String
  deriving DecidableEq

/-- Method `MCPBrowserToolExecutor.click(ref, description)`.  `lastSnapshot` is the
executor's remembered snapshot text, available to the method through
`this`. -/
def executorClick (lastSnapshot : List Char) (ref description : String) : ClickOutcome :=
  { calls := [BrowserCall.click description ref, BrowserCall.waitFor 1000],
    success := true,
    message := "Clicked " ++ description }

/-- Does the element reference `ref` appear (as a `[ref=...]` marker) in a
snapshot text? -/
def refAppears (snap : List Char) (ref : String) : Bool :=
  jsIncludes snap (("[ref=".toList) ++ ref.toList ++ [']'])

/-- Claim shape for C2: a Decision whose `ref` did not appear in the last
snapshot is not executed against the browser, and instead triggers a fresh
snapshot. -/
def unresolvedRefRequeries : Prop :=
  ∀ (lastSnapshot : List Char) (ref description : String),
    refAppears lastSnapshot ref = false →
      (BrowserCall.click description ref) ∉ (executorClick lastSnapshot ref description).calls
      ∧ BrowserCall.snapshot ∈ (executorClick lastSnapshot ref description).calls

/-! ### LLMAgent: `_navigateApplicationForm` and `_handleSubmit`

The multi-step form loop, as a trace of observable actions over an arbitrary
sequence of Policy decisions.  `policy i` is the Decision parsed from the
model's answer at step `i`; the decision variants mirror the `action`
dispatch of the loop body, with an `other` catch-all for actions matching
none of the branches (the loop then just continues). -/

/-- One entry of a `fill` decision's `fields` array. -/
structure FieldSpec where
  fieldType : String
  value : String
  deriving DecidableEq

/-- A Policy decision, as dispatched by `_navigateApplicationForm`. -/
inductive LLMDecision where
  | click (elementDescription : String)
  | fill (fields : List FieldSpec)
  | submit (elementDescription : String)
  | pauseForManual (reason : String)
  | error (msg : String)
  | other
  deriving DecidableEq

/-- Observable actions of the agent: snapshot capture, a decision request to
the Policy, a browser click on a described element, a field fill, blocking
on the user pressing Enter (`_waitForEnter`), and the confirmation
screenshot taken after a submit click. -/
inductive AgentEv where
  | snapshotReq
  | decisionReq
  | clickEv (desc : String)
  | fillEv (count : Nat)
  | confirmWait
  | screenshotEv
  deriving DecidableEq

/-- How `_navigateApplicationForm` ends. -/
inductive NavResult where
  | submitted
  | failed (msg : String)
  | maxStepsExceeded
  deriving DecidableEq

/-- Constant `maxSteps = 10`, the safety limit of the form loop. -/
def maxSteps : Nat := 10

/-- The loop body of `_navigateApplicationForm`, with `fuel = maxSteps -
stepCount`.  Each iteration snapshots, asks the Policy, then dispatches on
the decision: `submit` runs `_handleSubmit` (wait for Enter, click, take a
screenshot) and breaks; `click` clicks; `fill` fills then clicks `Next`;
`pause_for_manual` waits for Enter; `error` throws; anything else falls
through.  After the loop, `stepCount >= maxSteps` throws `Exceeded maximum
steps` — including, as the code is written, when the break came from a
submit on the final step. -/
def navSteps (policy : Nat → LLMDecision) : Nat → Nat → List AgentEv × NavResult
  | 0, _ => ([], NavResult.maxStepsExceeded)
  | fuel + 1, stepCount =>
    let i := stepCount + 1
    let pre := [AgentEv.snapshotReq, AgentEv.decisionReq]
    match policy i with
    | LLMDecision.submit desc =>
      (pre ++ [AgentEv.confirmWait, AgentEv.clickEv desc, AgentEv.screenshotEv],
        if maxSteps ≤ i then NavResult.maxStepsExceeded else NavResult.submitted)
    | LLMDecision.click desc =>
      let r := navSteps policy fuel i
      (pre ++ AgentEv.clickEv desc :: r.1, r.2)
    | LLMDecision.fill fields =>
      let r := navSteps policy fuel i
      (pre ++ AgentEv.fillEv fields.length :: AgentEv.clickEv "Next" :: r.1, r.2)
    | LLMDecision.pauseForManual _ =>
      let r := navSteps policy fuel i
      (pre ++ AgentEv.confirmWait :: r.1, r.2)
    | LLMDecision.error m => (pre, NavResult.failed m)
    | LLMDecision.other =>
      let r := navSteps policy fuel i
      (pre ++ r.1, r.2)

/-- Method `_navigateApplicationForm` itself: run the loop from `stepCount = 0`. -/
def navigateApplicationForm (policy : Nat → LLMDecision) : List AgentEv × NavResult :=
  navSteps policy maxSteps 0

/-- Scan a trace for a click on `target` that happens before any
confirmation wait: `true` means the checkpoint was bypassed for `target`. -/
def unconfirmedClick (target : String) : List AgentEv → Bool
  | [] => false
  | AgentEv.confirmWait :: _ => false
  | AgentEv.clickEv d :: rest =>
    if d == target then true else unconfirmedClick target rest
  | _ :: rest => unconfirmedClick target rest

/-- Claim shape for C1: for the designated submit control, no Policy
decision sequence clicks it before the external proceed signal was
received. -/
def submitGateUnbypassable (submitTarget : String) : Prop :=
  ∀ policy : Nat → LLMDecision,
    unconfirmedClick submitTarget (navigateApplicationForm policy).1 = false

/-- A click immediately followed by the confirmation screenshot is exactly
the click `_handleSubmit` issues; this scan checks that every such click is
immediately preceded by the wait for the user's Enter. -/
def submitClickGated : List AgentEv → Bool
  | [] => true
  | AgentEv.confirmWait :: AgentEv.clickEv _ :: AgentEv.screenshotEv :: rest2 =>
    submitClickGated rest2
  | AgentEv.clickEv _ :: AgentEv.screenshotEv :: _ => false
  | _ :: rest => submitClickGated rest

/-! ### ClaudeJobAgent.applyToJob: the bounded main loop

The loop keeps a conversation history and calls the Claude API each
iteration; for termination only the control flow matters, so the API
response for iteration `i` (or the exception the `try` block raises, from
the API call or a tool execution) is an oracle parameter.  An adversarial
Policy is an arbitrary oracle. -/

/-- One content block of an API response. -/
inductive Block where
  | text (s : String)
  | toolUse (name : String) (input : String)

/-- The `stop_reason` values the loop dispatches on. -/
inductive StopReason where
  | toolUse
  | endTurn
  | otherReason

/-- What iteration `i` of the `try` body observes. -/
inductive ApiOutcome where
  | ok (stop : StopReason) (content : List Block)
  | thrown (msg : String)

/-- The `finalResult` values the loop can end with. -/
inductive FinalResult where
  | completed (input : String)
  | maxIterationsReached
  | errored (msg : String)
  deriving DecidableEq

/-- Processing of the `tool_use` block list: every `task_complete` block
sets `taskComplete` and overwrites `finalResult` with its input, so the last
one wins. -/
def taskCompleteInput (blocks : List Block) : Option String :=
  blocks.foldl
    (fun acc b =>
      match b with
      | Block.toolUse n input => if n == "task_complete" then some input else acc
      | Block.text _ => acc)
    none

/-- The `while (!taskComplete && iteration < this.maxIterations)` loop with
`maxIterations = 50`, as a recursion on `fuel = maxIterations - iteration`.
Each pass increments `iteration`; a thrown error is caught and completes the
run; otherwise `task_complete` blocks (under `stop_reason === 'tool_use'`)
complete it, and the in-body safety check fires once `iteration` reaches 50,
overriding even a same-iteration completion, exactly as the code does.
Returns the number of iterations executed and the final result (`none`
models `finalResult` still being `null`). -/
def applyLoop (oracle : Nat → ApiOutcome) : Nat → Nat → Nat × Option FinalResult
  | 0, iteration => (iteration, none)
  | fuel + 1, iteration =>
    let i := iteration + 1
    match oracle i with
    | ApiOutcome.thrown m => (i, some (FinalResult.errored m))
    | ApiOutcome.ok stop blocks =>
      let tc :=
        match stop with
        | StopReason.toolUse => taskCompleteInput blocks
        | _ => none
      if 50 ≤ i then (i, some FinalResult.maxIterationsReached)
      else
        match tc with
        | some input => (i, some (FinalResult.completed input))
        | none => applyLoop oracle fuel i

/-- Method `applyToJob`: run the main loop from iteration 0 with the full budget. -/
def applyToJob (oracle : Nat → ApiOutcome) : Nat × Option FinalResult :=
  applyLoop oracle 50 0

/-! ### Concrete material for witnesses and counterexamples -/

/-- A concrete stand-in for `JSON.parse` plus field extraction, used to
instantiate the `parse` parameter on concrete traces: it accepts three fixed
lines and rejects everything else. -/
def demoParse (line : List Char) : Option Msg :=
  if line == ("RESULT 1".toList) then some { id := some 1, error := none, result := "ok" }
  else if line == ("ERROR 1".toList) then some { id := some 1, error := some "MCP Error", result := "" }
  else if line == ("RESULT 2".toList) then some { id := some 2, error := none, result := "ok2" }
  else none

/-- Claim shape for C4's response handling: a response whose id matches a
pending entry resolves that request (with the response's result). -/
def resolvesOnResponse : Prop :=
  ∀ (st : Client) (m : Msg) (i : Nat), m.id = some i → pendingHas st i = true →
    (handleMessage st m).settled = st.settled ++ [(i, Settle.resolved m.result)]

/-- Claim shape for C3: when the process exits, every pending entry is
rejected and the table is cleared. -/
def exitClearsPending : Prop :=
  ∀ (st : Client) (code : Int), (processExited st code).pending = []

/-- A 20-line snapshot whose lines are all four characters long. -/
def shortLinesText : List Char :=
  ("aaaa\naaaa\naaaa\naaaa\naaaa\naaaa\naaaa\naaaa\naaaa\naaaa\naaaa\naaaa\naaaa\naaaa\naaaa\naaaa\naaaa\naaaa\naaaa\naaaa").toList

/-- A 60-character single-line snapshot. -/
def longRunText : List Char :=
  ("aaaaaaaaaaaaaaaaaaaaaaaaaaaaaaaaaaaaaaaaaaaaaaaaaaaaaaaaaaaa").toList

/-- A snapshot fragment matching the first navigation pattern. -/
def navPatternText : List Char :=
  ("- link \"Jobs\" x\n- link \"Messaging\" y").toList

/-- Gluing of split results across a concatenation: the last segment of the
first part joins the first segment of the second. -/
def glueSplit : List (List Char) → List (List Char) → List (List Char)
  | [], ys => ys
  | [x], ys =>
    match ys with
    | [] => [x]
    | y :: yt => (x ++ y) :: yt
  | x :: xt, ys => x :: glueSplit xt ys

/-- Structural invariant of the protocol client: pending ids are distinct,
every id ever seen is bounded by the id counter, a pending request has no
settlement yet, and no id has more than one settlement. -/
def goodClient (st : Client) : Prop :=
  (pendingIds st).Nodup
  ∧ (∀ i ∈ pendingIds st, i ≤ st.messageId)
  ∧ (∀ p ∈ st.settled, p.1 ≤ st.messageId)
  ∧ (∀ i ∈ pendingIds st, settleCount st i = 0)
  ∧ (∀ i : Nat, settleCount st i ≤ 1)

/-- Request `i` has been settled, exactly once, and is gone from the
pending table. -/
def settledDone (st : Client) (i : Nat) : Prop :=
  i ∉ pendingIds st ∧ settleCount st i = 1 ∧ i ≤ st.messageId

/-- Claim shape for C6: the triage output always fits the budget. -/
def reduceFitsBudget : Prop :=
  ∀ (ps : List Char) (count b : Nat) (s : List Char),
    (reduceWithBudget ps count b s).length ≤ b

/-- Claim shape for C7: the triage reduction is idempotent. -/
def reduceIdempotent : Prop :=
  ∀ (ps : List Char) (count b : Nat) (s : List Char),
    reduceWithBudget ps count b (reduceWithBudget ps count b s)
      = reduceWithBudget ps count b s

/-- Claim shape for C8: the triage output is a function of the raw snapshot
text alone, independent of the executor's hidden mutable state. -/
def triageStateIndependent : Prop :=
  ∀ (st1 st2 : ExecState) (s : List Char),
    (takeSnapshot st1 s).2 = (takeSnapshot st2 s).2

/-- Claim shape for C9: `removeNoise` keeps every actionable line, whatever
its label. -/
def removeNoiseKeepsActionable : Prop :=
  ∀ (s l : List Char), l ∈ splitLines s → isActionableLine l = true →
    l ∈ splitLines (removeNoise s)

/-! ## Theorems -/

/-! ### Lemmas on line splitting and joining -/

theorem splitLines_ne_nil (s : List Char) : splitLines s ≠ [] := by
  cases s with
  | nil => simp [splitLines]
  | cons c cs =>
    simp only [splitLines]
    cases h : splitLines cs with
    | nil => simp
    | cons l ls =>
      simp only [h]
      by_cases hc : (c == '\n') = true <;> simp [hc]

theorem exists_splitLines_cons (s : List Char) : ∃ l ls, splitLines s = l :: ls := by
  cases h : splitLines s with
  | nil => exact absurd h (splitLines_ne_nil s)
  | cons l ls => exact ⟨l, ls, rfl⟩

theorem no_newline_of_mem_splitLines :
    ∀ (s l : List Char), l ∈ splitLines s → '\n' ∉ l := by
  intro s
  induction s with
  | nil =>
    intro l hl
    simp [splitLines] at hl
    subst hl; simp
  | cons c cs ih =>
    intro l hl
    obtain ⟨h, t, heq⟩ := exists_splitLines_cons cs
    simp only [splitLines, heq] at hl
    by_cases hc : c = '\n'
    · simp [hc] at hl
      rcases hl with hl | hl | hl
      · subst hl; simp
      · exact ih l (by rw [heq]; simp [hl])
      · exact ih l (by rw [heq]; simp [hl])
    · have : (c == '\n') = false := by simp [hc]
      simp [this] at hl
      rcases hl with hl | hl
      · subst hl
        intro hmem
        rcases List.mem_cons.mp hmem with h1 | h1
        · exact hc h1.symm
        · exact ih h (by rw [heq]; simp) h1
      · exact ih l (by rw [heq]; simp [hl])

theorem splitLines_eq_single {x : List Char} (hx : '\n' ∉ x) : splitLines x = [x] := by
  induction x with
  | nil => rfl
  | cons c cs ih =>
    have hc : ¬ c = '\n' := fun h => hx (by simp [h])
    have hcs : '\n' ∉ cs := fun h => hx (by simp [h])
    have : (c == '\n') = false := by simp [hc]
    simp [splitLines, ih hcs, this]

theorem splitLines_append_nl {x : List Char} (hx : '\n' ∉ x) (t : List Char) :
    splitLines (x ++ '\n' :: t) = x :: splitLines t := by
  induction x with
  | nil =>
    obtain ⟨h, ts, heq⟩ := exists_splitLines_cons t
    simp [splitLines, heq]
  | cons c cs ih =>
    have hc : ¬ c = '\n' := fun h => hx (by simp [h])
    have hcs : '\n' ∉ cs := fun h => hx (by simp [h])
    have hbeq : (c == '\n') = false := by simp [hc]
    show splitLines (c :: (cs ++ '\n' :: t)) = (c :: cs) :: splitLines t
    simp only [splitLines]
    rw [ih hcs]
    simp [hbeq]

theorem splitLines_joinLines :
    ∀ ls : List (List Char), ls ≠ [] → (∀ l ∈ ls, '\n' ∉ l) →
      splitLines (joinLines ls) = ls
  | [], h, _ => absurd rfl h
  | [x], _, hmem => by
    simpa [joinLines] using splitLines_eq_single (hmem x (by simp))
  | x :: y :: rest, _, hmem => by
    have hx : '\n' ∉ x := hmem x (by simp)
    show splitLines (x ++ '\n' :: joinLines (y :: rest)) = x :: (y :: rest)
    rw [splitLines_append_nl hx,
      splitLines_joinLines (y :: rest) (by simp) (fun l hl => hmem l (by simp [hl]))]

/-! ### C9: removeNoise versus actionable controls -/

/-- C9, counterexample: `removeNoise` does not keep every actionable
control for all labels — the line `- button "Go Premium"` is an actionable
button yet its label matches the `premium` noise keyword and the whole line
is dropped. -/
theorem removeNoise_drops_labeled_control : ¬ removeNoiseKeepsActionable := by
  intro h
  have h2 := h (("- button \"Go Premium\"").toList) (("- button \"Go Premium\"").toList)
    (by decide) (by decide)
  exact absurd h2 (by decide)

/-- C9 (amended): `removeNoise` keeps every actionable control line whose
text contains none of the noise markers; only lines matching a noise keyword
(even actionable ones) are removed. -/
theorem removeNoise_keeps_clean_lines (s l : List Char) (hl : l ∈ splitLines s)
    (ha : isActionableLine l = true) (hn : isNoise l = false) :
    l ∈ splitLines (removeNoise s) := by
  have hmem : l ∈ (splitLines s).filter (fun l => !(isNoise l)) :=
    List.mem_filter.mpr ⟨hl, by simp [hn]⟩
  have hne : (splitLines s).filter (fun l => !(isNoise l)) ≠ [] := by
    intro h
    rw [h] at hmem
    exact absurd hmem (List.not_mem_nil l)
  rw [removeNoise, splitLines_joinLines _ hne
    (fun l' hl' => no_newline_of_mem_splitLines s l' (List.mem_of_mem_filter hl'))]
  exact hmem

/-- C9, witness: a clean button line survives `removeNoise`. -/
theorem removeNoise_keeps_clean_lines_inst :
    (("- button \"Next\"").toList) ∈ splitLines (removeNoise (("- button \"Next\"").toList)) :=
  removeNoise_keeps_clean_lines _ _ (by decide) (by decide) (by decide)

/-! ### C7: idempotence of the reduction -/

/-- C7, counterexample: the budgeted reduction is not idempotent — on a
60-character single-line snapshot with budget 30 the second application
truncates again and writes a fresh marker with a different length. -/
theorem reduce_not_idempotent : ¬ reduceIdempotent := by
  intro h
  have h2 := h ("initial".toList) 1 30 longRunText
  exact absurd h2 (by decide)

/-- C7 (amended): the noise-removal pass is idempotent — running
`removeNoise` on already-denoised text removes nothing further.  The
budgeted truncation of `takeSnapshot` is the part that breaks idempotence
of the full pipeline, by appending its marker. -/
theorem removeNoise_idempotent (s : List Char) :
    removeNoise (removeNoise s) = removeNoise s := by
  rcases hfe : (splitLines s).filter (fun l => !(isNoise l)) with _ | ⟨x, xs⟩
  · have h1 : removeNoise s = [] := by rw [removeNoise, hfe]; rfl
    rw [h1]
    decide
  · have h1 : removeNoise s = joinLines (x :: xs) := by rw [removeNoise, hfe]
    have hsub : ∀ l ∈ x :: xs, l ∈ (splitLines s).filter (fun l => !(isNoise l)) := by
      intro l hl
      rw [hfe]
      exact hl
    have hnl : ∀ l ∈ x :: xs, '\n' ∉ l := fun l hl =>
      no_newline_of_mem_splitLines s l (List.mem_of_mem_filter (hsub l hl))
    have hsplit : splitLines (removeNoise s) = x :: xs := by
      rw [h1]
      exact splitLines_joinLines _ (by simp) hnl
    have hfilter : (x :: xs).filter (fun l => !(isNoise l)) = x :: xs := by
      apply List.filter_eq_self.mpr
      intro a ha
      exact (List.mem_filter.mp (hsub a ha)).2
    conv_lhs => rw [removeNoise]
    rw [hsplit, hfilter, ← h1]

/-! ### C8: dependence of the triage on hidden executor state -/

/-- C8, counterexample: the same raw snapshot text triages differently
depending on the executor's hidden `snapshotCount` — the navigation pattern
is only stripped from the second snapshot on. -/
theorem triage_not_state_independent : ¬ triageStateIndependent := by
  intro h
  have h2 := h { pageState := ("initial".toList), snapshotCount := 0 }
    { pageState := ("initial".toList), snapshotCount := 1 } navPatternText
  exact absurd h2 (by decide)

/-- C8 (amended): the triage is deterministic as a function of the raw text
together with the hidden state, and the snapshot counter matters only
through whether this is the first snapshot: any two counts above 1 produce
identical output. -/
theorem reduce_count_threshold (ps : List Char) (b : Nat) (s : List Char) (c1 c2 : Nat)
    (h1 : 1 < c1) (h2 : 1 < c2) :
    reduceWithBudget ps c1 b s = reduceWithBudget ps c2 b s := by
  unfold reduceWithBudget filterSnapshot
  simp [h1, h2]

/-- C8, witness: snapshot counts 2 and 3 triage the navigation fragment
identically. -/
theorem reduce_count_threshold_inst :
    reduceWithBudget ("initial".toList) 2 30 navPatternText
      = reduceWithBudget ("initial".toList) 3 30 navPatternText :=
  reduce_count_threshold _ 30 navPatternText 2 3 (by decide) (by decide)

/-! ### C3: behaviour on process exit -/

/-- C3, counterexample: after the process exits, a pending request is still
in the table — the exit handler does not clear it. -/
theorem exit_handler_keeps_pending : ¬ exitClearsPending := by
  intro h
  exact absurd (h (sendRequest initClient "tools/list") 0) (by decide)

/-- C3 (amended): the process-exit handler only logs; the pending table,
the settlement log, the id counter and the buffer are all left unchanged,
so entries pending at exit are settled only by their 30-second timeouts. -/
theorem processExit_only_logs (st : Client) (code : Int) :
    (processExited st code).pending = st.pending
    ∧ (processExited st code).settled = st.settled
    ∧ (processExited st code).messageId = st.messageId
    ∧ (processExited st code).buffer = st.buffer :=
  ⟨rfl, rfl, rfl, rfl⟩

/-! ### C2: ref validation before execution -/

/-- C2, counterexample: a click Decision whose ref `e999` appears nowhere
in the last snapshot is still executed against the browser, and no fresh
snapshot is requested. -/
theorem click_executes_unresolved_ref : ¬ unresolvedRefRequeries := by
  intro h
  have h2 := h (("- button \"Easy Apply\" [ref=e5]").toList) "e999" "Submit button"
    (by decide)
  exact h2.1 (by decide)

/-- C2 (amended): the executor's `click` forwards whatever ref the Decision
carries directly to the browser — it issues exactly the click and a 1-second
wait, never a snapshot, and its behaviour does not consult the remembered
snapshot at all. -/
theorem click_forwards_ref_without_validation (lastSnapshot : List Char)
    (ref description : String) :
    (executorClick lastSnapshot ref description).calls
      = [BrowserCall.click description ref, BrowserCall.waitFor 1000]
    ∧ BrowserCall.snapshot ∉ (executorClick lastSnapshot ref description).calls
    ∧ executorClick lastSnapshot ref description = executorClick [] ref description := by
  refine ⟨rfl, ?_, rfl⟩
  simp [executorClick]

/-! ### C1: the submit confirmation checkpoint -/

theorem navSteps_shape (policy : Nat → LLMDecision) (fuel c : Nat) :
    (navSteps policy fuel c).1 = []
    ∨ ∃ t, (navSteps policy fuel c).1 = AgentEv.snapshotReq :: t := by
  cases fuel with
  | zero => exact Or.inl rfl
  | succ f =>
    right
    simp only [navSteps]
    cases policy (c + 1) <;> exact ⟨_, rfl⟩

/-- C1, counterexample: the confirmation checkpoint can be bypassed — the
Policy that answers every query with the Decision `click "Submit
application"` makes the orchestrator click the submit control with no prior
wait for the user's proceed signal. -/
theorem submit_click_bypassed_by_click_decision :
    ¬ submitGateUnbypassable "Submit application" := by
  intro h
  have h2 := h (fun _ => LLMDecision.click "Submit application")
  exact absurd h2 (by decide)

/-- C1 (amended): the checkpoint guards exactly the Decisions tagged
`submit`: for every Policy, every click issued by the submit handler
(`_handleSubmit`, recognizable by its trailing confirmation screenshot) is
immediately preceded by the wait for the user's Enter; a `click`-tagged
Decision naming the same control is not gated. -/
theorem submit_handler_click_gated (policy : Nat → LLMDecision) :
    submitClickGated (navigateApplicationForm policy).1 = true := by
  suffices h : ∀ fuel c, submitClickGated (navSteps policy fuel c).1 = true from
    h maxSteps 0
  intro fuel
  induction fuel with
  | zero => intro c; rfl
  | succ f ih =>
    intro c
    simp only [navSteps]
    cases hp : policy (c + 1) with
    | submit desc => rfl
    | click desc =>
      show submitClickGated (AgentEv.snapshotReq :: AgentEv.decisionReq ::
        AgentEv.clickEv desc :: (navSteps policy f (c + 1)).1) = true
      rcases navSteps_shape policy f (c + 1) with h | ⟨t, h⟩
      · rw [h]; rfl
      · rw [h]
        have h2 := ih (c + 1)
        rw [h] at h2
        exact h2
    | fill fields =>
      show submitClickGated (AgentEv.snapshotReq :: AgentEv.decisionReq ::
        AgentEv.fillEv fields.length :: AgentEv.clickEv "Next" ::
        (navSteps policy f (c + 1)).1) = true
      rcases navSteps_shape policy f (c + 1) with h | ⟨t, h⟩
      · rw [h]; rfl
      · rw [h]
        have h2 := ih (c + 1)
        rw [h] at h2
        exact h2
    | pauseForManual reason =>
      show submitClickGated (AgentEv.snapshotReq :: AgentEv.decisionReq ::
        AgentEv.confirmWait :: (navSteps policy f (c + 1)).1) = true
      rcases navSteps_shape policy f (c + 1) with h | ⟨t, h⟩
      · rw [h]; rfl
      · rw [h]
        have h2 := ih (c + 1)
        rw [h] at h2
        exact h2
    | error m => rfl
    | other =>
      show submitClickGated (AgentEv.snapshotReq :: AgentEv.decisionReq ::
        (navSteps policy f (c + 1)).1) = true
      rcases navSteps_shape policy f (c + 1) with h | ⟨t, h⟩
      · rw [h]; rfl
      · rw [h]
        have h2 := ih (c + 1)
        rw [h] at h2
        exact h2

/-! ### C10: bounded termination of the main loop -/

theorem applyLoop_bound (oracle : Nat → ApiOutcome) :
    ∀ fuel it, it + fuel = 50 → 1 ≤ fuel →
      (applyLoop oracle fuel it).1 ≤ 50
      ∧ ((applyLoop oracle fuel it).2).isSome = true := by
  intro fuel
  induction fuel with
  | zero => intro it h h1; omega
  | succ f ih =>
    intro it h _
    simp only [applyLoop]
    cases ho : oracle (it + 1) with
    | thrown m =>
      dsimp only
      exact ⟨by omega, rfl⟩
    | ok stop blocks =>
      dsimp only
      by_cases hc : 50 ≤ it + 1
      · simp only [if_pos hc]
        exact ⟨by omega, rfl⟩
      · simp only [if_neg hc]
        cases stop with
        | toolUse =>
          cases htc : taskCompleteInput blocks with
          | some input => simp only [htc]; exact ⟨by omega, rfl⟩
          | none => simp only [htc]; exact ih (it + 1) (by omega) (by omega)
        | endTurn => exact ih (it + 1) (by omega) (by omega)
        | otherReason => exact ih (it + 1) (by omega) (by omega)

/-- C10: for every oracle — hence every Policy behaviour, including an
adversarial one repeating the same decision forever — `applyToJob` runs at
most 50 iterations and ends with a terminal result set. -/
theorem applyToJob_terminates (oracle : Nat → ApiOutcome) :
    (applyToJob oracle).1 ≤ 50 ∧ ((applyToJob oracle).2).isSome = true :=
  applyLoop_bound oracle 50 0 rfl (by omega)

/-! ### C6: the budget bound of the reduction -/

/-- C6, counterexample: the triage output does not fit the budget — on a
99-character snapshot of twenty 4-character lines (so no single element
comes near the budget) with cap 30, the output is 95 characters long,
because the head-keeping truncation appends its marker beyond the cap.  The
returned value also carries no `truncated` flag anywhere; the marker is
embedded in the text. -/
theorem reduce_exceeds_budget : ¬ reduceFitsBudget := by
  intro h
  have h2 := h ("initial".toList) 1 30 shortLinesText
  exact absurd h2 (by decide)

/-- The truncation step overshoots the cap by at most the appended marker:
71 characters of fixed marker text plus the decimal length interpolated
into the head-keeping marker. -/
theorem truncateStep_length (pageState : List Char) (b : Nat) (f : List Char) :
    (truncateStep pageState b f).length ≤ b + 71 + (toString f.length).length := by
  have hmt : modalTailMarker.length = 71 := by decide
  have hbg : backgroundMarker.length = 27 := by decide
  have hem : earlierMarker.length = 32 := by decide
  have hsh : snapTruncHead.length = 37 := by decide
  have hst : snapTruncTail.length = 26 := by decide
  have hdig : ((toString f.length).toList).length = (toString f.length).length := rfl
  unfold truncateStep
  by_cases h1 : hasModal f = true
  · simp only [h1, if_true]
    cases hms : findModalStart f with
    | some modalStart =>
      dsimp only
      by_cases h2 : min (modalStart + b) f.length < f.length
      · simp only [if_pos h2, List.length_append, List.length_take, List.length_drop, hmt]
        omega
      · simp only [if_neg h2, List.length_take, List.length_drop]
        omega
    | none =>
      dsimp only
      by_cases h2 : b < f.length
      · simp only [if_pos h2, List.length_append, List.length_drop, hbg]
        omega
      · simp only [if_neg h2]
        omega
  · simp only [Bool.not_eq_true] at h1
    simp only [h1, Bool.false_eq_true, if_false]
    by_cases h2 : b < f.length
    · simp only [if_pos h2]
      by_cases h3 : (pageState == "initial".toList) = true
      · simp only [h3, if_true, List.length_append, List.length_take, hsh, hst, hdig]
        omega
      · simp only [h3, Bool.false_eq_true, if_false, List.length_append, List.length_drop,
          hem]
        omega
    · simp only [if_neg h2]
      omega

/-- C6 (amended): the budget is a character cap, not a token bound, and the
triage output may exceed it — but only by the length of the marker the
truncation appends (at most 71 fixed characters plus the decimal rendering
of the filtered length); oversize is signalled by that in-text marker, never
by raising an error, and no `truncated` boolean exists in the return
value. -/
theorem reduce_length_bound (ps : List Char) (count b : Nat) (s : List Char) :
    (reduceWithBudget ps count b s).length
      ≤ b + 71 + (toString (filterSnapshot count s).length).length :=
  truncateStep_length (detectPageState ps s) b (filterSnapshot count s)

/-! ### C4: exactly-once settlement of requests -/

theorem pendingHas_iff (st : Client) (i : Nat) :
    pendingHas st i = true ↔ i ∈ pendingIds st := by
  simp [pendingHas]

theorem length_filter_append_single (sett : List (Nat × Settle)) (j : Nat) (k : Settle)
    (i : Nat) :
    ((sett ++ [(j, k)]).filter (fun p => p.1 == i)).length
      = (sett.filter (fun p => p.1 == i)).length + (if j = i then 1 else 0) := by
  rw [List.filter_append]
  by_cases h : j = i
  · subst h
    simp [List.length_append]
  · have hb : ((j, k).1 == i) = false := by simp [h]
    simp [hb]
    exact h

theorem settleCount_zero_of_bound {st : Client} {n i : Nat}
    (hb : ∀ p ∈ st.settled, p.1 ≤ n) (hi : n < i) : settleCount st i = 0 := by
  simp only [settleCount, List.length_eq_zero]
  rw [List.filter_eq_nil]
  intro p hp
  have := hb p hp
  simp only [beq_iff_eq]
  omega

theorem mem_pendingIds_delete {st : Client} {i j : Nat}
    (h : j ∈ (pendingDelete st i).map Prod.fst) : j ∈ pendingIds st ∧ j ≠ i := by
  simp only [pendingDelete, List.mem_map, List.mem_filter] at h
  obtain ⟨p, ⟨hp, hne⟩, hj⟩ := h
  subst hj
  refine ⟨List.mem_map.mpr ⟨p, hp, rfl⟩, ?_⟩
  simpa using hne

theorem nodup_pendingIds_delete (st : Client) (i : Nat) (h : (pendingIds st).Nodup) :
    ((pendingDelete st i).map Prod.fst).Nodup :=
  List.Nodup.sublist ((List.filter_sublist _).map _) h

theorem goodClient_settle {st : Client} {i : Nat} (k : Settle)
    (hi : i ∈ pendingIds st) (h : goodClient st) :
    goodClient { st with pending := pendingDelete st i,
                         settled := st.settled ++ [(i, k)] } := by
  obtain ⟨h1, h2, h3, h4, h5⟩ := h
  have hile : i ≤ st.messageId := h2 i hi
  have hcnt0 : settleCount st i = 0 := h4 i hi
  refine ⟨nodup_pendingIds_delete st i h1, ?_, ?_, ?_, ?_⟩
  · intro j hj
    exact h2 j (mem_pendingIds_delete hj).1
  · intro p hp
    rcases List.mem_append.mp hp with hp | hp
    · exact h3 p hp
    · have : p = (i, k) := by simpa using hp
      subst this
      exact hile
  · intro j hj
    obtain ⟨hj1, hj2⟩ := mem_pendingIds_delete hj
    have hz : settleCount st j = 0 := h4 j hj1
    simp only [settleCount] at hz ⊢
    rw [length_filter_append_single, if_neg (fun hh => hj2 hh.symm)]
    simpa using hz
  · intro j
    simp only [settleCount] at hcnt0 h5 ⊢
    rw [length_filter_append_single]
    by_cases hij : i = j
    · subst hij
      rw [if_pos rfl]
      omega
    · rw [if_neg hij]
      have := h5 j
      omega

theorem goodClient_handleMessage {st : Client} (m : Msg) (h : goodClient st) :
    goodClient (handleMessage st m) := by
  unfold handleMessage
  cases m.id with
  | none => exact h
  | some i =>
    dsimp only
    by_cases hp : pendingHas st i = true
    · rw [if_pos hp]
      have hi : i ∈ pendingIds st := (pendingHas_iff st i).mp hp
      cases m.error with
      | some e => exact goodClient_settle (Settle.rejectedError e) hi h
      | none => exact goodClient_settle (Settle.resolved m.result) hi h
    · rw [if_neg hp]
      exact h

theorem goodClient_timeoutFired {st : Client} (i : Nat) (h : goodClient st) :
    goodClient (timeoutFired st i) := by
  unfold timeoutFired
  by_cases hp : pendingHas st i = true
  · rw [if_pos hp]
    cases pendingGet st i with
    | some method =>
      exact goodClient_settle (Settle.rejectedTimeout method) ((pendingHas_iff st i).mp hp) h
    | none => exact h
  · rw [if_neg hp]
    exact h

theorem goodClient_sendRequest {st : Client} (method : String) (h : goodClient st) :
    goodClient (sendRequest st method) := by
  obtain ⟨h1, h2, h3, h4, h5⟩ := h
  refine ⟨?_, ?_, ?_, ?_, h5⟩
  · show ((st.pending ++ [(st.messageId + 1, method)]).map Prod.fst).Nodup
    rw [List.map_append, List.nodup_append]
    refine ⟨h1, by simp, ?_⟩
    intro j hj
    simp only [List.map_cons, List.map_nil, List.mem_singleton]
    intro heq
    have := h2 j hj
    omega
  · intro j hj
    show j ≤ st.messageId + 1
    rw [show pendingIds (sendRequest st method)
        = pendingIds st ++ [st.messageId + 1] from by
      simp [sendRequest, pendingIds]] at hj
    rcases List.mem_append.mp hj with hj | hj
    · have := h2 j hj
      omega
    · simp at hj
      omega
  · intro p hp
    show p.1 ≤ st.messageId + 1
    have := h3 p hp
    omega
  · intro j hj
    rw [show pendingIds (sendRequest st method)
        = pendingIds st ++ [st.messageId + 1] from by
      simp [sendRequest, pendingIds]] at hj
    rcases List.mem_append.mp hj with hj | hj
    · exact h4 j hj
    · have hj2 : j = st.messageId + 1 := by simpa using hj
      subst hj2
      exact settleCount_zero_of_bound h3 (by omega)

theorem goodClient_processLine (parse : List Char → Option Msg) {st : Client}
    (line : List Char) (h : goodClient st) : goodClient (processLine parse st line) := by
  unfold processLine
  by_cases ht : (jsTrim line == []) = true
  · rw [if_pos ht]
    exact h
  · rw [if_neg ht]
    cases parse line with
    | some m => exact goodClient_handleMessage m h
    | none => exact h

theorem goodClient_foldl (parse : List Char → Option Msg) :
    ∀ (lines : List (List Char)) (st : Client), goodClient st →
      goodClient (lines.foldl (processLine parse) st) := by
  intro lines
  induction lines with
  | nil => intro st h; exact h
  | cons l ls ih =>
    intro st h
    exact ih _ (goodClient_processLine parse l h)

theorem goodClient_handleData (parse : List Char → Option Msg) {st : Client}
    (chunk : List Char) (h : goodClient st) : goodClient (handleData parse st chunk) := by
  unfold handleData
  exact goodClient_foldl parse _ _ h

theorem goodClient_step (parse : List Char → Option Msg) {st : Client} (ev : Ev)
    (h : goodClient st) : goodClient (step parse st ev) := by
  cases ev with
  | call method => exact goodClient_sendRequest method h
  | stdout chunk => exact goodClient_handleData parse chunk h
  | timeoutFire i => exact goodClient_timeoutFired i h
  | procExit code => exact h

theorem goodClient_run (parse : List Char → Option Msg) :
    ∀ (evs : List Ev) (st : Client), goodClient st → goodClient (run parse st evs) := by
  intro evs
  induction evs with
  | nil => intro st h; exact h
  | cons e es ih =>
    intro st h
    exact ih _ (goodClient_step parse e h)

theorem goodClient_init : goodClient initClient := by
  refine ⟨List.nodup_nil, ?_, ?_, ?_, ?_⟩ <;> intro x <;> simp [initClient, pendingIds, settleCount]

theorem settledDone_settle {st : Client} {i j : Nat} (k : Settle)
    (hij : j ≠ i) (hd : settledDone st i) :
    settledDone { st with pending := pendingDelete st j,
                          settled := st.settled ++ [(j, k)] } i := by
  obtain ⟨hd1, hd2, hd3⟩ := hd
  refine ⟨?_, ?_, hd3⟩
  · intro hmem
    exact hd1 (mem_pendingIds_delete hmem).1
  · simp only [settleCount] at hd2 ⊢
    rw [length_filter_append_single, if_neg hij]
    simpa using hd2

theorem settledDone_handleMessage {st : Client} (m : Msg) {i : Nat}
    (hd : settledDone st i) : settledDone (handleMessage st m) i := by
  unfold handleMessage
  cases m.id with
  | none => exact hd
  | some j =>
    dsimp only
    by_cases hp : pendingHas st j = true
    · rw [if_pos hp]
      have hj : j ∈ pendingIds st := (pendingHas_iff st j).mp hp
      have hij : j ≠ i := fun e => hd.1 (e ▸ hj)
      cases m.error with
      | some e => exact settledDone_settle _ hij hd
      | none => exact settledDone_settle _ hij hd
    · rw [if_neg hp]
      exact hd

theorem settledDone_timeoutFired {st : Client} (j : Nat) {i : Nat}
    (hd : settledDone st i) : settledDone (timeoutFired st j) i := by
  unfold timeoutFired
  by_cases hp : pendingHas st j = true
  · rw [if_pos hp]
    have hj : j ∈ pendingIds st := (pendingHas_iff st j).mp hp
    have hij : j ≠ i := fun e => hd.1 (e ▸ hj)
    cases pendingGet st j with
    | some method => exact settledDone_settle _ hij hd
    | none => exact hd
  · rw [if_neg hp]
    exact hd

theorem settledDone_sendRequest {st : Client} (method : String) {i : Nat}
    (hd : settledDone st i) : settledDone (sendRequest st method) i := by
  obtain ⟨hd1, hd2, hd3⟩ := hd
  refine ⟨?_, hd2, by show i ≤ st.messageId + 1; omega⟩
  show i ∉ (st.pending ++ [(st.messageId + 1, method)]).map Prod.fst
  rw [List.map_append, List.mem_append]
  rintro (hmem | hmem)
  · exact hd1 hmem
  · have : i = st.messageId + 1 := by simpa using hmem
    omega

theorem settledDone_processLine (parse : List Char → Option Msg) {st : Client}
    (line : List Char) {i : Nat} (hd : settledDone st i) :
    settledDone (processLine parse st line) i := by
  unfold processLine
  by_cases ht : (jsTrim line == []) = true
  · rw [if_pos ht]
    exact hd
  · rw [if_neg ht]
    cases parse line with
    | some m => exact settledDone_handleMessage m hd
    | none => exact hd

theorem settledDone_foldl (parse : List Char → Option Msg) :
    ∀ (lines : List (List Char)) (st : Client) (i : Nat), settledDone st i →
      settledDone (lines.foldl (processLine parse) st) i := by
  intro lines
  induction lines with
  | nil => intro st i h; exact h
  | cons l ls ih =>
    intro st i h
    exact ih _ _ (settledDone_processLine parse l h)

theorem settledDone_step (parse : List Char → Option Msg) {st : Client} (ev : Ev)
    {i : Nat} (hd : settledDone st i) : settledDone (step parse st ev) i := by
  cases ev with
  | call method => exact settledDone_sendRequest method hd
  | stdout chunk =>
    show settledDone (handleData parse st chunk) i
    unfold handleData
    exact settledDone_foldl parse _ _ _ hd
  | timeoutFire j => exact settledDone_timeoutFired j hd
  | procExit code => exact hd

theorem settledDone_run (parse : List Char → Option Msg) :
    ∀ (evs : List Ev) (st : Client) (i : Nat), settledDone st i →
      settledDone (run parse st evs) i := by
  intro evs
  induction evs with
  | nil => intro st i h; exact h
  | cons e es ih =>
    intro st i h
    exact ih _ _ (settledDone_step parse e h)

theorem settle_now {st : Client} {i : Nat} (k : Settle) (hg : goodClient st)
    (hp : i ∈ pendingIds st) :
    settledDone { st with pending := pendingDelete st i,
                          settled := st.settled ++ [(i, k)] } i := by
  refine ⟨?_, ?_, hg.2.1 i hp⟩
  · intro hmem
    exact (mem_pendingIds_delete hmem).2 rfl
  · have hz : settleCount st i = 0 := hg.2.2.2.1 i hp
    simp only [settleCount] at hz ⊢
    rw [length_filter_append_single, if_pos rfl]
    omega

theorem run_append (parse : List Char → Option Msg) (a b : List Ev) :
    ∀ st : Client, run parse st (a ++ b) = run parse (run parse st a) b := by
  induction a with
  | nil => intro st; rfl
  | cons e es ih => intro st; exact ih (step parse st e)

theorem pendingGet_of_mem {st : Client} {i : Nat} (hp : i ∈ pendingIds st) :
    ∃ method, pendingGet st i = some method := by
  obtain ⟨p, hpmem, hpi⟩ := List.mem_map.mp hp
  have hmem : p ∈ st.pending.filter (fun q => q.1 == i) :=
    List.mem_filter.mpr ⟨hpmem, by simp [hpi]⟩
  simp only [pendingGet]
  cases hf : st.pending.filter (fun q => q.1 == i) with
  | nil =>
    rw [hf] at hmem
    exact absurd hmem (List.not_mem_nil p)
  | cons q qs => exact ⟨q.2, rfl⟩

/-- C4, counterexample: the promise is not resolved whenever a response
bearing its id arrives — a response carrying an `error` field rejects it
instead (with the error's message), even though the response's id matches
the pending request. -/
theorem response_with_error_rejects : ¬ resolvesOnResponse := by
  intro h
  have h2 := h (sendRequest initClient "tools/list")
    { id := some 1, error := some "boom", result := "r" } 1 rfl (by decide)
  exact absurd h2 (by decide)

/-- C4 (amended): every request settles at most once, a pending request has
no settlement yet (the entry is removed at the settling moment, never
before), a pending request whose timeout fires is from then on settled
exactly once and gone from the table whatever happens next, and a response
bearing a pending id settles that request on the spot, removing its
entry.  Resolution versus rejection follows the response's `error` field;
with the timer of every call eventually firing, no request stays pending
forever. -/
theorem call_settled_exactly_once :
    (∀ (parse : List Char → Option Msg) (evs : List Ev) (i : Nat),
        settleCount (run parse initClient evs) i ≤ 1)
    ∧ (∀ (parse : List Char → Option Msg) (evs : List Ev) (i : Nat),
        i ∈ pendingIds (run parse initClient evs) →
          settleCount (run parse initClient evs) i = 0)
    ∧ (∀ (parse : List Char → Option Msg) (evs evs2 : List Ev) (i : Nat),
        i ∈ pendingIds (run parse initClient evs) →
          settleCount (run parse initClient (evs ++ Ev.timeoutFire i :: evs2)) i = 1
          ∧ i ∉ pendingIds (run parse initClient (evs ++ Ev.timeoutFire i :: evs2)))
    ∧ (∀ (parse : List Char → Option Msg) (evs : List Ev) (i : Nat) (m : Msg),
        i ∈ pendingIds (run parse initClient evs) → m.id = some i →
          settleCount (handleMessage (run parse initClient evs) m) i = 1
          ∧ i ∉ pendingIds (handleMessage (run parse initClient evs) m)) := by
  have main : ∀ (parse : List Char → Option Msg) (evs : List Ev),
      goodClient (run parse initClient evs) :=
    fun parse evs => goodClient_run parse evs initClient goodClient_init
  refine ⟨?_, ?_, ?_, ?_⟩
  · intro parse evs i
    exact (main parse evs).2.2.2.2 i
  · intro parse evs i hp
    exact (main parse evs).2.2.2.1 i hp
  · intro parse evs evs2 i hp
    have hg := main parse evs
    rw [run_append]
    show settleCount (run parse (step parse (run parse initClient evs) (Ev.timeoutFire i)) evs2) i = 1
      ∧ i ∉ pendingIds (run parse (step parse (run parse initClient evs) (Ev.timeoutFire i)) evs2)
    obtain ⟨method, hget⟩ := pendingGet_of_mem hp
    have hstep : step parse (run parse initClient evs) (Ev.timeoutFire i)
        = { run parse initClient evs with
              pending := pendingDelete (run parse initClient evs) i,
              settled := (run parse initClient evs).settled
                ++ [(i, Settle.rejectedTimeout method)] } := by
      show timeoutFired (run parse initClient evs) i = _
      unfold timeoutFired
      rw [if_pos ((pendingHas_iff _ _).mpr hp), hget]
    rw [hstep]
    have hd := settledDone_run parse evs2 _ i
      (settle_now (Settle.rejectedTimeout method) hg hp)
    exact ⟨hd.2.1, hd.1⟩
  · intro parse evs i m hp hm
    have hg := main parse evs
    unfold handleMessage
    rw [hm]
    dsimp only
    rw [if_pos ((pendingHas_iff _ _).mpr hp)]
    cases hme : m.error with
    | some e =>
      have hd := settle_now (Settle.rejectedError e) hg hp
      exact ⟨hd.2.1, hd.1⟩
    | none =>
      have hd := settle_now (Settle.resolved m.result) hg hp
      exact ⟨hd.2.1, hd.1⟩

/-- C4, witness: on the concrete trace consisting of one `sendRequest`
call, request 1 is unsettled and pending, and after its timeout fires it is
settled exactly once with the entry gone; a matching response settles it the
same way. -/
theorem call_settled_exactly_once_inst :
    settleCount (run demoParse initClient [Ev.call "tools/list"]) 1 ≤ 1
    ∧ settleCount (run demoParse initClient [Ev.call "tools/list"]) 1 = 0
    ∧ (settleCount (run demoParse initClient
          ([Ev.call "tools/list"] ++ Ev.timeoutFire 1 :: [])) 1 = 1
        ∧ 1 ∉ pendingIds (run demoParse initClient
          ([Ev.call "tools/list"] ++ Ev.timeoutFire 1 :: [])))
    ∧ (settleCount (handleMessage (run demoParse initClient [Ev.call "tools/list"])
          { id := some 1, error := none, result := "ok" }) 1 = 1
        ∧ 1 ∉ pendingIds (handleMessage (run demoParse initClient [Ev.call "tools/list"])
          { id := some 1, error := none, result := "ok" })) :=
  ⟨call_settled_exactly_once.1 demoParse [Ev.call "tools/list"] 1,
   call_settled_exactly_once.2.1 demoParse [Ev.call "tools/list"] 1 (by decide),
   call_settled_exactly_once.2.2.1 demoParse [Ev.call "tools/list"] [] 1 (by decide),
   call_settled_exactly_once.2.2.2 demoParse [Ev.call "tools/list"] 1
     { id := some 1, error := none, result := "ok" } (by decide) rfl⟩

/-! ### C5: incremental line parsing of stdout chunks -/

theorem handleData_eq (parse : List Char → Option Msg) (st : Client) (chunk : List Char) :
    handleData parse st chunk
      = (splitLines (st.buffer ++ chunk)).dropLast.foldl (processLine parse)
          { st with buffer := (splitLines (st.buffer ++ chunk)).getLast?.getD [] } := rfl

theorem handleMessage_buffer (st : Client) (m : Msg) :
    (handleMessage st m).buffer = st.buffer := by
  unfold handleMessage
  cases m.id with
  | none => rfl
  | some i =>
    dsimp only
    by_cases hp : pendingHas st i = true
    · rw [if_pos hp]
      cases m.error <;> rfl
    · rw [if_neg hp]

theorem processLine_buffer (parse : List Char → Option Msg) (st : Client) (l : List Char) :
    (processLine parse st l).buffer = st.buffer := by
  unfold processLine
  by_cases ht : (jsTrim l == []) = true
  · rw [if_pos ht]
  · rw [if_neg ht]
    cases parse l with
    | some m => exact handleMessage_buffer st m
    | none => rfl

theorem foldl_processLine_buffer (parse : List Char → Option Msg) :
    ∀ (lines : List (List Char)) (st : Client),
      (lines.foldl (processLine parse) st).buffer = st.buffer := by
  intro lines
  induction lines with
  | nil => intro st; rfl
  | cons l ls ih =>
    intro st
    rw [List.foldl_cons, ih, processLine_buffer]

theorem handleMessage_setBuffer (a : Nat) (p : List (Nat × String)) (bu v : List Char)
    (se : List (Nat × Settle)) (lo : List (List Char)) (m : Msg) :
    handleMessage ⟨a, p, v, se, lo⟩ m
      = { handleMessage ⟨a, p, bu, se, lo⟩ m with buffer := v } := by
  unfold handleMessage
  cases m.id with
  | none => rfl
  | some i =>
    dsimp only
    by_cases hp : pendingHas ⟨a, p, bu, se, lo⟩ i = true
    · have hp2 : pendingHas ⟨a, p, v, se, lo⟩ i = true := hp
      rw [if_pos hp, if_pos hp2]
      cases m.error <;> rfl
    · have hp2 : ¬ pendingHas ⟨a, p, v, se, lo⟩ i = true := hp
      rw [if_neg hp, if_neg hp2]

theorem processLine_setBuffer (parse : List Char → Option Msg) (st : Client)
    (v : List Char) (l : List Char) :
    processLine parse { st with buffer := v } l
      = { processLine parse st l with buffer := v } := by
  obtain ⟨a, p, bu, se, lo⟩ := st
  show processLine parse ⟨a, p, v, se, lo⟩ l = _
  unfold processLine
  by_cases ht : (jsTrim l == []) = true
  · simp only [if_pos ht]
  · simp only [if_neg ht]
    cases hpl : parse l with
    | some m =>
      simp only [hpl]
      exact handleMessage_setBuffer a p bu v se lo m
    | none => simp only [hpl]

theorem foldl_processLine_setBuffer (parse : List Char → Option Msg) :
    ∀ (lines : List (List Char)) (st : Client) (v : List Char),
      lines.foldl (processLine parse) { st with buffer := v }
        = { lines.foldl (processLine parse) st with buffer := v } := by
  intro lines
  induction lines with
  | nil => intro st v; rfl
  | cons l ls ih =>
    intro st v
    show ls.foldl (processLine parse) (processLine parse { st with buffer := v } l) = _
    rw [processLine_setBuffer, ih]
    rfl

theorem dropLast_cons_cons_eq (x y : List Char) (l : List (List Char)) :
    (x :: y :: l).dropLast = x :: (y :: l).dropLast := rfl

theorem dropLast_append_cons :
    ∀ (l1 : List (List Char)) (y : List Char) (yt : List (List Char)),
      (l1 ++ y :: yt).dropLast = l1 ++ (y :: yt).dropLast := by
  intro l1 y yt
  induction l1 with
  | nil => rfl
  | cons x xs ih =>
    cases hxs : xs ++ y :: yt with
    | nil => exact absurd hxs (by simp)
    | cons z zs =>
      show (x :: (xs ++ y :: yt)).dropLast = x :: xs ++ (y :: yt).dropLast
      rw [hxs, dropLast_cons_cons_eq, ← hxs, ih]
      rfl

theorem getLastD_append_cons :
    ∀ (l1 : List (List Char)) (y : List Char) (yt : List (List Char)),
      (l1 ++ y :: yt).getLast?.getD [] = ((y :: yt).getLast?).getD [] := by
  intro l1 y yt
  induction l1 with
  | nil => rfl
  | cons x xs ih =>
    cases hxs : xs ++ y :: yt with
    | nil => exact absurd hxs (by simp)
    | cons z zs =>
      show ((x :: (xs ++ y :: yt)).getLast?).getD [] = _
      rw [hxs, List.getLast?_cons_cons, ← hxs, ih]

theorem splitLines_append_decomp (a b : List Char) (bh : List Char)
    (bt : List (List Char)) (hb : splitLines b = bh :: bt) :
    splitLines (a ++ b)
      = (splitLines a).dropLast ++ ((splitLines a).getLast?.getD [] ++ bh) :: bt := by
  induction a with
  | nil => simpa [splitLines] using hb
  | cons c cs ih =>
    obtain ⟨sh, stail, hS⟩ := exists_splitLines_cons cs
    show splitLines (c :: (cs ++ b)) = _
    simp only [splitLines]
    rw [ih, hS]
    cases stail with
    | nil =>
      by_cases hc : (c == '\n') = true
      · simp [hc]
      · simp [hc]
    | cons s2 srest =>
      by_cases hc : (c == '\n') = true
      · simp [hc, List.getLast?_cons_cons, dropLast_cons_cons_eq]
      · simp [hc, List.getLast?_cons_cons, dropLast_cons_cons_eq]

theorem getLastD_mem_splitLines (s : List Char) :
    (splitLines s).getLast?.getD [] ∈ splitLines s := by
  obtain ⟨h, t, heq⟩ := exists_splitLines_cons s
  rw [heq, List.getLast?_eq_getLast _ (List.cons_ne_nil h t), Option.getD_some]
  exact List.getLast_mem _

theorem handleData_append (parse : List Char → Option Msg) (st : Client)
    (c1 c2 : List Char) :
    handleData parse (handleData parse st c1) c2 = handleData parse st (c1 ++ c2) := by
  obtain ⟨b2h, b2t, hB2⟩ := exists_splitLines_cons c2
  have hbuf1 : (handleData parse st c1).buffer
      = (splitLines (st.buffer ++ c1)).getLast?.getD [] := by
    rw [handleData_eq, foldl_processLine_buffer]
  have hr1nl : '\n' ∉ (splitLines (st.buffer ++ c1)).getLast?.getD [] :=
    no_newline_of_mem_splitLines _ _ (getLastD_mem_splitLines (st.buffer ++ c1))
  have hsplit2 : splitLines ((splitLines (st.buffer ++ c1)).getLast?.getD [] ++ c2)
      = ((splitLines (st.buffer ++ c1)).getLast?.getD [] ++ b2h) :: b2t := by
    have h2 := splitLines_append_decomp
      ((splitLines (st.buffer ++ c1)).getLast?.getD []) c2 b2h b2t hB2
    rw [splitLines_eq_single hr1nl] at h2
    simpa using h2
  have hfull : splitLines (st.buffer ++ (c1 ++ c2))
      = (splitLines (st.buffer ++ c1)).dropLast
        ++ ((splitLines (st.buffer ++ c1)).getLast?.getD [] ++ b2h) :: b2t := by
    rw [← List.append_assoc]
    exact splitLines_append_decomp _ c2 b2h b2t hB2
  rw [handleData_eq parse (handleData parse st c1) c2, hbuf1, hsplit2,
    handleData_eq parse st (c1 ++ c2), hfull, handleData_eq parse st c1,
    dropLast_append_cons, getLastD_append_cons, List.foldl_append]
  congr 1
  have hswap : ∀ v : List Char,
      (splitLines (st.buffer ++ c1)).dropLast.foldl (processLine parse)
          { st with buffer := v }
        = { (splitLines (st.buffer ++ c1)).dropLast.foldl (processLine parse) st
            with buffer := v } :=
    fun v => foldl_processLine_setBuffer parse _ st v
  rw [hswap ((splitLines (st.buffer ++ c1)).getLast?.getD []),
    hswap ((((splitLines (st.buffer ++ c1)).getLast?.getD [] ++ b2h) :: b2t).getLast?.getD [])]

/-- C5: incremental parsing of the stdout stream.  First, the incomplete
trailing chunk is genuinely retained: delivering the bytes in two chunks is
the same as delivering them in one, for every split point — so a line may
arrive in arbitrary fragments.  Second, the retained buffer is exactly the
trailing segment after the last newline.  Third, a malformed complete line
is logged and dropped: its only effect is one log entry — the pending table,
the settlement log and the buffer are untouched, and the loop goes on to the
next line (the fold is total). -/
theorem handleData_incremental :
    (∀ (parse : List Char → Option Msg) (st : Client) (c1 c2 : List Char),
        handleData parse (handleData parse st c1) c2 = handleData parse st (c1 ++ c2))
    ∧ (∀ (parse : List Char → Option Msg) (st : Client) (chunk : List Char),
        (handleData parse st chunk).buffer
          = (splitLines (st.buffer ++ chunk)).getLast?.getD [])
    ∧ (∀ (parse : List Char → Option Msg) (st : Client) (line : List Char),
        jsTrim line ≠ [] → parse line = none →
          processLine parse st line
            = { st with logs := st.logs
                ++ [("Failed to parse MCP message: ".toList ++ line)] }) := by
  refine ⟨handleData_append, ?_, ?_⟩
  · intro parse st chunk
    rw [handleData_eq, foldl_processLine_buffer]
  · intro parse st line ht hp
    unfold processLine
    rw [if_neg (by simpa using ht), hp]

/-- C5, witness: the response line `RESULT 1` may arrive split in the
middle; and the malformed line `junk` only appends a log entry. -/
theorem handleData_incremental_inst :
    handleData demoParse (handleData demoParse initClient ("RESU".toList))
        ("LT 1\njunk".toList)
      = handleData demoParse initClient ("RESU".toList ++ "LT 1\njunk".toList)
    ∧ processLine demoParse initClient ("junk".toList)
      = { initClient with logs := initClient.logs
          ++ [("Failed to parse MCP message: ".toList ++ "junk".toList)] } :=
  ⟨handleData_incremental.1 demoParse initClient ("RESU".toList) ("LT 1\njunk".toList),
   handleData_incremental.2.2 demoParse initClient ("junk".toList) (by decide) (by decide)⟩
